/-
Verification of the US Treasury trading back-end (FinalProject).

This file gives a shallow embedding of the stateful processors of the
pipeline -- market data, algo execution, trade booking, positions,
algo streaming, inquiries, the GUI throttle, and the fractional price
codec -- translated from the C++ sources, and proves the stated
properties about them.

Modelling conventions:
* C++ `double` prices are modelled as `ℚ`.  Every price that flows
  through the verified paths is a dyadic rational (a multiple of
  1/256 or a midpoint thereof), which IEEE doubles represent exactly,
  so exact rational arithmetic is a faithful model.
* C++ `long` quantities and counters are modelled as `ℤ` / `ℕ`
  (no verified path comes near overflow).
* `unordered_map` keyed stores are modelled as association lists with
  `operator[]`-style upsert; listener fan-out is modelled by returning
  the list of records handed to `ProcessAdd`, in call order.
* `std::to_string` on a non-negative integer is modelled by `natRepr`
  (canonical decimal digits, most significant first).
* Strings are ASCII throughout, so C++ byte positions coincide with
  character positions; `std::string::find` / `substr` are modelled on
  the character list of the Lean `String`.
-/
import Mathlib

namespace TradingSystem

/-! ## Decimal strings: model of `std::to_string` / `stod` on digit strings -/

/-- Value of a most-significant-first digit string, as `stod`/`stol`
reads one (model of `std::stod` restricted to unsigned integer-digit
strings, which is the only way the pipeline calls it). -/
def digitsVal (l : List Char) : ℕ :=
  l.foldl (fun acc c => 10 * acc + (c.toNat - 48)) 0

/-- Canonical decimal rendering of a natural number: the model of
`std::to_string` on non-negative values. -/
def natRepr (n : ℕ) : String :=
  if n = 0 then "0" else ⟨(Nat.digits 10 n).reverse.map Nat.digitChar⟩

/-- Model of `std::to_string` on C++ `int`/`long` values. -/
def intRepr (n : ℤ) : String :=
  if n < 0 then "-" ++ natRepr n.natAbs else natRepr n.toNat

/-- Model of `s.find(c)` for an ASCII `std::string`. -/
def strFind (s : String) (c : Char) : ℕ :=
  s.data.findIdx (· = c)

/-- Model of `s.substr(pos, len)` for an ASCII `std::string`. -/
def strSubstr (s : String) (pos len : ℕ) : String :=
  ⟨(s.data.drop pos).take len⟩

/-- Model of `std::stod` on the digit substrings cut out of a
fractional price (always unsigned integer digits). -/
def stodDigits (s : String) : ℚ :=
  (digitsVal s.data : ℚ)

/-! ## Product static table (`soa.hpp`)

Only `GetProductId()` is ever consulted by the pipeline, so the bond
metadata (coupon, maturity, ticker) is omitted from the record. -/

structure Bond where
  productId : String
deriving DecidableEq, Repr

/-- The seven CUSIPs of the static product table in `GetProductType`. -/
def knownCusips : List String :=
  ["91282CFX4", "91282CGA3", "91282CFZ9", "91282CFY2",
   "91282CFV8", "912810TM0", "912810TL2"]

/-- Model of `GetProductType` (soa.hpp): static lookup from CUSIP to bond.  The
C++ function falls off the end (undefined behaviour) for an unknown
identifier; that case is modelled as a default bond. -/
def GetProductType (cusip : String) : Bond :=
  if cusip ∈ knownCusips then ⟨cusip⟩ else ⟨""⟩

/-! ## Fractional price codec (`soa.hpp`) -/

/-- Model of `GetNormalPrice` (soa.hpp): fractional price string to decimal.
Follows the C++ line by line: split at `-`, two 32nds digits, one
256ths digit with `+` meaning 4. -/
def GetNormalPrice (price : String) : ℚ :=
  let pos_dot := strFind price '-'
  let fp := strSubstr price 0 pos_dot
  let sp := strSubstr price (pos_dot + 1) 2
  let tp0 := strSubstr price (pos_dot + 3) 1
  let tp := if tp0 = "+" then "4" else tp0
  stodDigits fp + stodDigits sp / 32 + stodDigits tp / 256

/-- Model of `GetQuotePrice` (soa.hpp): decimal price to fractional string.
`floor` on doubles becomes `Int.floor` on `ℚ`; the C++ `%` is taken on
a non-negative operand on every reachable input, where it agrees with
`Int.emod`. -/
def GetQuotePrice (price : ℚ) : String :=
  let fp : ℤ := ⌊price⌋
  let tp : ℤ := ⌊((price - (fp : ℚ)) * 256 : ℚ)⌋
  let sp : ℤ := ⌊((tp : ℚ) / 8 : ℚ)⌋
  let tp2 : ℤ := tp % 8
  let tmp_sp := if sp < 10 then "0" ++ intRepr sp else intRepr sp
  let tmp_tp := if tp2 = 4 then "+" else intRepr tp2
  intRepr fp ++ "-" ++ tmp_sp ++ tmp_tp

/-- The canonical well-formed fractional price string `xxx-yyz`:
integer handle in canonical decimal, 32nds zero-padded to two
characters, 256ths digit with `+` for 4.  Well-formedness of the claim
is `y ≤ 31` and `z ≤ 7`. -/
def fracString (x y z : ℕ) : String :=
  natRepr x ++ "-" ++ (if y < 10 then "0" ++ natRepr y else natRepr y) ++
    (if z = 4 then "+" else natRepr z)

/-! ## Keyed stores

`unordered_map` with `operator[]` upsert, modelled as an association
list (insertion order; the claims never depend on iteration order). -/

/-- Upsert `map[k] = v` on an `unordered_map`: replace the binding if the key
is present, append it otherwise. -/
def upsert {α : Type} (k : String) (v : α) : List (String × α) → List (String × α)
  | [] => [(k, v)]
  | (k0, v0) :: rest => if k0 = k then (k, v) :: rest else (k0, v0) :: upsert k v rest

/-- Association list lookup (`map.find(k)`). -/
def alookup {α : Type} (k : String) : List (String × α) → Option α
  | [] => none
  | (k0, v0) :: rest => if k0 = k then some v0 else alookup k rest

/-! ## Market data (`marketdataservice.hpp`) -/

inductive PricingSide where
  | BID
  | OFFER
deriving DecidableEq, Repr

/-- Model of `Order` (marketdataservice.hpp). -/
structure Order where
  price : ℚ
  quantity : ℤ
  side : PricingSide
deriving DecidableEq, Repr

/-- Model of `BidOffer` (marketdataservice.hpp). -/
structure BidOffer where
  bidOrder : Order
  offerOrder : Order
deriving DecidableEq, Repr

/-- Model of `OrderStacks` (marketdataservice.hpp): an order book update. -/
structure OrderStacks where
  product : Bond
  bidStack : List Order
  offerStack : List Order
deriving DecidableEq, Repr

/-- The bid scan in `OrderStacks::GetBestBidOffer`: start from the
sentinel `Order(0, 0, BID)` and keep the strictly higher price, so the
first occurrence wins ties. -/
def bestBidScan (stack : List Order) : Order :=
  stack.foldl (fun best p => if p.price > best.price then p else best) ⟨0, 0, .BID⟩

/-- The offer scan in `OrderStacks::GetBestBidOffer`: start from the
sentinel `Order(1000, 0, BID)` and keep the strictly lower price. -/
def bestOfferScan (stack : List Order) : Order :=
  stack.foldl (fun best p => if p.price < best.price then p else best) ⟨1000, 0, .BID⟩

/-- Model of `OrderStacks::GetBestBidOffer` (marketdataservice.hpp). -/
def OrderStacks.GetBestBidOffer (b : OrderStacks) : BidOffer :=
  ⟨bestBidScan b.bidStack, bestOfferScan b.offerStack⟩

/-- One well-formed line of `marketdata.txt` after parsing:
`<identifier>,<fractionalPrice>,<quantity>,<side>` with the side token
one of `BID` / `OFFER` (the well-formedness assumed by the claim). -/
structure MDLine where
  cusip : String
  price : ℚ
  quantity : ℤ
  side : PricingSide
deriving DecidableEq, Repr

/-- The loop body state of `marketDataConnector::Subscribe`
(marketdataservice.hpp): `num_line` counts lines read since the last
emission, `bidStacks` / `offerStacks` accumulate orders in arrival
order.  Every 10th line packages the accumulators into one
`OrderStacks` keyed by that line's identifier, hands it to
`service->OnMessage` (which fans it out), and resets.  The returned
list is the sequence of emitted book updates, in order. -/
def marketDataSubscribe : List MDLine → ℕ → List Order → List Order → List OrderStacks
  | [], _, _, _ => []
  | l :: rest, num_line, bidStacks, offerStacks =>
    let bidStacks1 := if l.side = .BID then bidStacks ++ [⟨l.price, l.quantity, .BID⟩] else bidStacks
    let offerStacks1 := if l.side = .OFFER then offerStacks ++ [⟨l.price, l.quantity, .OFFER⟩] else offerStacks
    let n1 := num_line + 1
    if n1 = 10 then
      ⟨GetProductType l.cusip, bidStacks1, offerStacks1⟩ :: marketDataSubscribe rest 0 [] []
    else
      marketDataSubscribe rest n1 bidStacks1 offerStacks1

/-! ## Algo execution (`algoexecutionservice.hpp`) -/

inductive OrderType where
  | FOK
  | IOC
  | MARKET
  | LIMIT
  | STOP
deriving DecidableEq, Repr

/-- Model of `ExecutionOrder` (algoexecutionservice.hpp).  The C++ class stores
the two quantities as `double` and truncates to `long` in the getters;
only integral values ever flow in, so they are `ℤ` here. -/
structure ExecutionOrder where
  product : Bond
  side : PricingSide
  orderId : String
  orderType : OrderType
  price : ℚ
  visibleQuantity : ℤ
  hiddenQuantity : ℤ
  parentOrderId : String
  isChildOrder : Bool
deriving DecidableEq, Repr

/-- Mutable state of `AlgoExecutionService`: the keyed store, the side
toggle `isBuy` (constructor sets `true`) and the order-id counter
`numID` (constructor sets `0`). -/
structure AlgoExecState where
  algoExecutions : List (String × ExecutionOrder)
  isBuy : Bool
  numID : ℕ
deriving DecidableEq, Repr

/-- The `AlgoExecutionService` constructor state. -/
def AlgoExecState.init : AlgoExecState := ⟨[], true, 0⟩

/-- Model of `AlgoExecutionService::OnMessage`: upsert keyed by product id,
then hand the record to every listener.  Returns the new store and
the fan-out. -/
def algoExecOnMessage (m : List (String × ExecutionOrder)) (d : ExecutionOrder) :
    List (String × ExecutionOrder) × List ExecutionOrder :=
  (upsert d.product.productId d m, [d])

/-- Model of `AlgoExecutionService::AlgoExecuteOrder` (algoexecutionservice.hpp),
line by line.  Returns the successor state and the execution orders
fanned out to the listeners. -/
def AlgoExecuteOrder (s : AlgoExecState) (orderBook : OrderStacks) :
    AlgoExecState × List ExecutionOrder :=
  let product := orderBook.product
  let orderId := natRepr s.numID
  let bidOffer := orderBook.GetBestBidOffer
  let bestBid := bidOffer.bidOrder
  let bestOffer := bidOffer.offerOrder
  let bidPrice := bestBid.price
  let bidQuantity := bestBid.quantity
  let offerPrice := bestOffer.price
  let offerQuantity := bestOffer.quantity
  if offerPrice - bidPrice ≤ 1 / 128 then
    let algoExecution : ExecutionOrder :=
      if s.isBuy then ⟨product, .BID, orderId, .MARKET, offerPrice, offerQuantity, 0, "NA", false⟩
      else ⟨product, .OFFER, orderId, .MARKET, bidPrice, bidQuantity, 0, "NA", false⟩
    let r := algoExecOnMessage s.algoExecutions algoExecution
    (⟨r.1, !s.isBuy, s.numID + 1⟩, r.2)
  else
    (s, [])

/-- Feed a sequence of order book updates through the service (each
book update arrives via `MarketDataListener::ProcessAdd`, which calls
`AlgoExecuteOrder`), collecting all fan-outs in order. -/
def runAlgoExec (s : AlgoExecState) : List OrderStacks → AlgoExecState × List ExecutionOrder
  | [] => (s, [])
  | b :: bs =>
    let r1 := AlgoExecuteOrder s b
    let r2 := runAlgoExec r1.1 bs
    (r2.1, r1.2 ++ r2.2)

/-- Flip a pricing side. -/
def flipSide : PricingSide → PricingSide
  | .BID => .OFFER
  | .OFFER => .BID

/-- The alternating side sequence of length `n` starting at `s`. -/
def altList (s : PricingSide) : ℕ → List PricingSide
  | 0 => []
  | n + 1 => s :: altList (flipSide s) n

/-! ## Trade booking (`tradebookingservice.hpp`) -/

inductive Side where
  | BUY
  | SELL
deriving DecidableEq, Repr

/-- Model of `Trade` (tradebookingservice.hpp). -/
structure Trade where
  product : Bond
  tradeId : String
  price : ℚ
  book : String
  quantity : ℤ
  side : Side
deriving DecidableEq, Repr

/-- Mutable state relevant to the execution-to-trade path: the keyed
trade store of `TradeBookingService` and the `ExecutionListener`
counter `num` (constructor sets `0`; no statement in the class ever
modifies it afterwards). -/
structure TradeBookingState where
  trades : List (String × Trade)
  num : ℤ
deriving DecidableEq, Repr

/-- The `TradeBookingService` / `ExecutionListener` constructor state. -/
def TradeBookingState.init : TradeBookingState := ⟨[], 0⟩

/-- Model of `TradeBookingService::OnMessage`: store keyed by trade id, then
invoke every listener with the trade.  Returns the new store and the
fan-out. -/
def tradeBookingOnMessage (trades : List (String × Trade)) (d : Trade) :
    List (String × Trade) × List Trade :=
  (upsert d.tradeId d trades, [d])

/-- Model of `ExecutionListener::ProcessAdd` (tradebookingservice.hpp), line by
line: derive the trade, then `service->OnMessage(trade)` followed by
`service->AddTrade(trade)` -- and `AddTrade` itself just calls
`OnMessage` again.  Returns the successor state and the concatenated
fan-outs of both `OnMessage` calls. -/
def executionListenerProcessAdd (st : TradeBookingState) (d : ExecutionOrder) :
    TradeBookingState × List Trade :=
  let product := d.product
  let pricingSide := d.side
  let tradeId := "TRADE-EXECUTE-" ++ d.orderId
  let price := d.price
  let quantity := d.visibleQuantity + d.hiddenQuantity
  let side : Side := match pricingSide with
    | .BID => .BUY
    | .OFFER => .SELL
  let book : String :=
    if st.num % 3 = 0 then "TRSY1"
    else if st.num % 3 = 1 then "TRSY2"
    else "TRSY3"
  let trade : Trade := ⟨product, tradeId, price, book, quantity, side⟩
  let r1 := tradeBookingOnMessage st.trades trade
  let r2 := tradeBookingOnMessage r1.1 trade
  (⟨r2.1, st.num⟩, r1.2 ++ r2.2)

/-- Feed a sequence of execution orders through the listener,
collecting the trades fanned out to the trade-booking listeners. -/
def runExecutionListener (st : TradeBookingState) :
    List ExecutionOrder → TradeBookingState × List Trade
  | [] => (st, [])
  | e :: es =>
    let r1 := executionListenerProcessAdd st e
    let r2 := runExecutionListener r1.1 es
    (r2.1, r1.2 ++ r2.2)

/-! ## Positions (`positionservice.hpp`) -/

/-- Model of `Position` (positionservice.hpp): per-book signed quantities in an
`unordered_map<string, long>`. -/
structure Position where
  product : Bond
  positions : List (String × ℤ)
deriving DecidableEq, Repr

/-- Model of `Position::AddPosition`: `positions[book] += q`
(`operator[]` inserts a zero entry when the book is absent). -/
def addPosQ (book : String) (q : ℤ) : List (String × ℤ) → List (String × ℤ)
  | [] => [(book, q)]
  | (b0, q0) :: rest => if b0 = book then (b0, q0 + q) :: rest else (b0, q0) :: addPosQ book q rest

/-- Model of `Position::AddPosition` on the record. -/
def Position.AddPosition (p : Position) (book : String) (q : ℤ) : Position :=
  ⟨p.product, addPosQ book q p.positions⟩

/-- Model of `Position::GetAggregatePosition`: sum of the per-book values. -/
def Position.GetAggregatePosition (p : Position) : ℤ :=
  (p.positions.map Prod.snd).sum

/-- Model of `Position::GetPosition` (`positions[book]`, read as 0 when the
book is absent, as `operator[]` default-constructs). -/
def Position.GetPosition (p : Position) (book : String) : ℤ :=
  (alookup book p.positions).getD 0

/-- The `PositionService` store: product id to `Position`. -/
def PositionStore : Type := List (String × Position)

/-- Model of `PositionService::AddTrade` (positionservice.hpp): sign the
quantity, create a fresh `Position` when the product is absent, add
into `positions[book]`, then `OnMessage` the updated position --
which, for this service, only fans it out to the listeners.  Returns
the new store and the fan-out. -/
def positionAddTrade (store : PositionStore) (trade : Trade) :
    PositionStore × List Position :=
  let productId := trade.product.productId
  let book := trade.book
  let quantity : ℤ := if trade.side = .SELL then -trade.quantity else trade.quantity
  let pos0 : Position := match alookup productId store with
    | none => Position.mk trade.product []
    | some p => p
  let pos1 := pos0.AddPosition book quantity
  (upsert productId pos1 store, [pos1])

/-- Feed a sequence of trades through `AddTrade`, collecting the
positions fanned out. -/
def runPositionService (store : PositionStore) : List Trade → PositionStore × List Position
  | [] => (store, [])
  | t :: ts =>
    let r1 := positionAddTrade store t
    let r2 := runPositionService r1.1 ts
    (r2.1, r1.2 ++ r2.2)

/-- Aggregate position held by the service for a product id (0 when
the product has never traded). -/
def storeAggregate (store : PositionStore) (productId : String) : ℤ :=
  ((alookup productId store).map Position.GetAggregatePosition).getD 0

/-- Per-book position held by the service for a product id. -/
def storeBookPosition (store : PositionStore) (productId book : String) : ℤ :=
  ((alookup productId store).map (fun p => p.GetPosition book)).getD 0

/-- Signed quantity of one trade (`SELL` negates). -/
def signedQuantity (t : Trade) : ℤ :=
  if t.side = .SELL then -t.quantity else t.quantity

/-- Signed cumulative quantity of the trades booked for a product. -/
def signedSum (productId : String) (ts : List Trade) : ℤ :=
  ((ts.filter (fun t => t.product.productId = productId)).map signedQuantity).sum

/-! ## Pricing and algo streaming (`pricingservice.hpp`, `algostreamingservice.hpp`) -/

/-- Model of `Price` (pricingservice.hpp). -/
structure Price where
  product : Bond
  mid : ℚ
  bidOfferSpread : ℚ
deriving DecidableEq, Repr

/-- Model of `PriceStreamOrder` (algostreamingservice.hpp). -/
structure PriceStreamOrder where
  price : ℚ
  visibleQuantity : ℤ
  hiddenQuantity : ℤ
  side : PricingSide
deriving DecidableEq, Repr

/-- Model of `PriceStream` (algostreamingservice.hpp). -/
structure PriceStream where
  product : Bond
  bidOrder : PriceStreamOrder
  offerOrder : PriceStreamOrder
deriving DecidableEq, Repr

/-- Mutable state of `AlgoStreamingService`: the keyed store and the
size-alternation flag `isFirst` (constructor sets `false`). -/
structure AlgoStreamingState where
  algoStreams : List (String × PriceStream)
  isFirst : Bool
deriving DecidableEq, Repr

/-- The `AlgoStreamingService` constructor state. -/
def AlgoStreamingState.init : AlgoStreamingState := ⟨[], false⟩

/-- Model of `AlgoStreamingService::PublishPrice` (algostreamingservice.hpp),
line by line.  `(isFirst + 1) * 10000000` promotes the `bool`: `false`
gives 10,000,000 and `true` gives 20,000,000.  The final `OnMessage`
upserts keyed by product id and fans the stream out; the fan-out is
returned. -/
def PublishPrice (s : AlgoStreamingState) (price : Price) :
    AlgoStreamingState × List PriceStream :=
  let product := price.product
  let bidPrice := price.mid - price.bidOfferSpread / 2
  let offerPrice := price.mid + price.bidOfferSpread / 2
  let visibleQuantity : ℤ := ((if s.isFirst then 1 else 0) + 1) * 10000000
  let hiddenQuantity : ℤ := visibleQuantity * 2
  let bidStreamOrder : PriceStreamOrder := ⟨bidPrice, visibleQuantity, hiddenQuantity, .BID⟩
  let offerStreamOrder : PriceStreamOrder := ⟨offerPrice, visibleQuantity, hiddenQuantity, .OFFER⟩
  let algoStream : PriceStream := ⟨product, bidStreamOrder, offerStreamOrder⟩
  (⟨upsert product.productId algoStream s.algoStreams, !s.isFirst⟩, [algoStream])

/-- Feed a sequence of prices through `PublishPrice` (each price
arrives via `PricingListener::ProcessAdd`), collecting fan-outs. -/
def runPublishPrice (s : AlgoStreamingState) : List Price → AlgoStreamingState × List PriceStream
  | [] => (s, [])
  | p :: ps =>
    let r1 := PublishPrice s p
    let r2 := runPublishPrice r1.1 ps
    (r2.1, r1.2 ++ r2.2)

/-- The price-stream record the spec promises for one price, given the
current alternation flag.  Modelled from the spec: bid at
`mid - spread/2`, offer at `mid + spread/2`, visible size 10,000,000
when the flag is clear and 20,000,000 when set, hidden twice
visible. -/
def specStream (alt : Bool) (p : Price) : PriceStream :=
  let visible : ℤ := if alt then 20000000 else 10000000
  ⟨p.product,
    ⟨p.mid - p.bidOfferSpread / 2, visible, 2 * visible, .BID⟩,
    ⟨p.mid + p.bidOfferSpread / 2, visible, 2 * visible, .OFFER⟩⟩

/-- The stream sequence the spec promises: alternate the size flag
across successive prices, starting from `alt`. -/
def specStreams (alt : Bool) : List Price → List PriceStream
  | [] => []
  | p :: ps => specStream alt p :: specStreams (!alt) ps

/-! ## Inquiries (`inquiryservice.hpp`) -/

inductive InquiryState where
  | RECEIVED
  | QUOTED
  | DONE
  | REJECTED
  | CUSTOMER_REJECTED
deriving DecidableEq, Repr

/-- Model of `Inquiry` (inquiryservice.hpp). -/
structure Inquiry where
  inquiryId : String
  product : Bond
  side : Side
  quantity : ℤ
  price : ℚ
  state : InquiryState
deriving DecidableEq, Repr

/-- Termination measure for the re-entrant `OnMessage`: `Publish`
lowers the state from `RECEIVED` to `QUOTED` before re-entering. -/
def inquiryStateRank : InquiryState → ℕ
  | .RECEIVED => 2
  | .QUOTED => 1
  | _ => 0

/-- Model of `InquiryService::OnMessage` (inquiryservice.hpp).  The C++ takes
the inquiry by reference; `connector->Publish(_data)` mutates that
same object (`SetState(QUOTED)`) and re-enters `OnMessage`, whose
`QUOTED` branch mutates it again (`SetState(DONE)`) and stores it.
Control then returns to the `RECEIVED` branch, which fans the -- by
now mutated -- object out to the listeners.  The result is the new
store, the final value of the referenced inquiry, and the fan-out in
call order.  (`Publish`'s body, `SetState(QUOTED)` then
`service->OnMessage`, is inlined at its single call site.) -/
def inquiryOnMessage (st : List (String × Inquiry)) (dat : Inquiry) :
    List (String × Inquiry) × Inquiry × List Inquiry :=
  match h : dat.state with
  | .RECEIVED =>
    let st1 := upsert dat.inquiryId dat st
    let dat1 : Inquiry := { dat with state := .QUOTED }
    let r := inquiryOnMessage st1 dat1
    (r.1, r.2.1, r.2.2 ++ [r.2.1])
  | .QUOTED =>
    let dat1 : Inquiry := { dat with state := .DONE }
    (upsert dat1.inquiryId dat1 st, dat1, [])
  | _ => (st, dat, [])
termination_by inquiryStateRank dat.state
decreasing_by simp [h, inquiryStateRank]

/-! ## GUI throttle (`guiservice.hpp`) -/

/-- Mutable state of `GUIService`: the keyed price store and
`lastTime`.  Time is in milliseconds as an exact rational (the boost
clock is microsecond-granular; the spec requires the clock be
injectable, so the current time is an input here). -/
structure GUIServiceState where
  guis : List (String × Price)
  lastTime : ℚ
deriving DecidableEq, Repr

/-- The 300 ms throttle (`boost::posix_time::millisec(300)`). -/
def guiThrottle : ℚ := 300

/-- Model of `GUIService::ThroettleStreamingPrices` (guiservice.hpp): when
`curTime - lastTime > throttle`, publish one line to `gui.txt`
(timestamp and price), run `OnMessage` (store and fan out), and set
`lastTime = curTime`; otherwise do nothing.  Returns the new state,
the `gui.txt` lines written, and the listener fan-out. -/
def ThroettleStreamingPrices (s : GUIServiceState) (curTime : ℚ) (price : Price) :
    GUIServiceState × List (ℚ × Price) × List Price :=
  if curTime - s.lastTime > guiThrottle then
    (⟨upsert price.product.productId price s.guis, curTime⟩, [(curTime, price)], [price])
  else
    (s, [], [])

/-- Feed a sequence of timestamped price updates through the throttle,
collecting the `gui.txt` lines written. -/
def runThrottle (s : GUIServiceState) : List (ℚ × Price) → GUIServiceState × List (ℚ × Price)
  | [] => (s, [])
  | (t, p) :: rest =>
    let r1 := ThroettleStreamingPrices s t p
    let r2 := runThrottle r1.1 rest
    (r2.1, r1.2.1 ++ r2.2)

/-! ## Spec-side description of market-data batching (for C7) -/

/-- The bid orders of a group of lines, in arrival order. -/
def bidOrdersOf (ls : List MDLine) : List Order :=
  (ls.filter (fun l => l.side = .BID)).map (fun l => ⟨l.price, l.quantity, .BID⟩)

/-- The offer orders of a group of lines, in arrival order. -/
def offerOrdersOf (ls : List MDLine) : List Order :=
  (ls.filter (fun l => l.side = .OFFER)).map (fun l => ⟨l.price, l.quantity, .OFFER⟩)

/-- The book update the spec promises for one complete group of 10
lines: the bid and offer orders of the group in arrival order, with
the instrument taken from the identifier on the group's last line.
Modelled from the spec's words. -/
def specGroupBook (ls : List MDLine) : OrderStacks :=
  ⟨GetProductType (((ls.getLast?).map MDLine.cusip).getD ""), bidOrdersOf ls, offerOrdersOf ls⟩

/-- The emission sequence the spec promises: one book per complete
group of 10 consecutive lines, leftovers dropped. -/
def specBatches (ls : List MDLine) : List OrderStacks :=
  if h : ls.length < 10 then []
  else specGroupBook (ls.take 10) :: specBatches (ls.drop 10)
termination_by ls.length
decreasing_by simp; omega

/-! ## Concrete sample inputs (used by witnesses and counterexamples) -/

/-- A bond from the static table. -/
def bondX : Bond := ⟨"91282CFX4"⟩

/-- A book whose best spread is 1/256 (99-160 bid, 99-16+ offer). -/
def bookTight : OrderStacks :=
  ⟨bondX, [⟨99 + 16 / 32, 1000, .BID⟩], [⟨99 + 16 / 32 + 1 / 256, 1500, .OFFER⟩]⟩

/-- A book whose best spread is 3/256, wider than 1/128. -/
def bookWide : OrderStacks :=
  ⟨bondX, [⟨99 + 16 / 32, 1000, .BID⟩], [⟨99 + 16 / 32 + 3 / 256, 1500, .OFFER⟩]⟩

/-- A sample execution order (the first one `bookTight` produces). -/
def execSample : ExecutionOrder :=
  ⟨bondX, .BID, "0", .MARKET, 99 + 16 / 32 + 1 / 256, 1500, 0, "NA", false⟩

/-- A second sample execution order. -/
def execSample1 : ExecutionOrder :=
  ⟨bondX, .OFFER, "1", .MARKET, 99 + 16 / 32, 1000, 0, "NA", false⟩

/-- The inquiry of scenario S5, as parsed from
`INQ1,91282CFX4,BUY,1000000,99-160,RECEIVED`. -/
def inqSample : Inquiry := ⟨"INQ1", bondX, .BUY, 1000000, 99 + 16 / 32, .RECEIVED⟩

/-- The price of scenario S2. -/
def priceSample : Price := ⟨bondX, 100, 1 / 32⟩

/-- A sample trade. -/
def tradeSample : Trade := ⟨bondX, "T1", 100, "TRSY1", 1000000, .BUY⟩

/-! # Theorems -/

/-- Unpacked step behaviour of `AlgoExecuteOrder`: either the spread
condition holds and exactly the expected order is emitted with the
side toggle flipped and the counter bumped, or nothing happens. -/
theorem algoExecuteOrder_step (s : AlgoExecState) (b : OrderStacks) :
    (b.GetBestBidOffer.offerOrder.price - b.GetBestBidOffer.bidOrder.price ≤ 1 / 128 →
      AlgoExecuteOrder s b =
        (⟨upsert b.product.productId
            (if s.isBuy then
              ⟨b.product, .BID, natRepr s.numID, .MARKET, b.GetBestBidOffer.offerOrder.price,
                b.GetBestBidOffer.offerOrder.quantity, 0, "NA", false⟩
             else
              ⟨b.product, .OFFER, natRepr s.numID, .MARKET, b.GetBestBidOffer.bidOrder.price,
                b.GetBestBidOffer.bidOrder.quantity, 0, "NA", false⟩) s.algoExecutions,
          !s.isBuy, s.numID + 1⟩,
         [if s.isBuy then
            ⟨b.product, .BID, natRepr s.numID, .MARKET, b.GetBestBidOffer.offerOrder.price,
              b.GetBestBidOffer.offerOrder.quantity, 0, "NA", false⟩
          else
            ⟨b.product, .OFFER, natRepr s.numID, .MARKET, b.GetBestBidOffer.bidOrder.price,
              b.GetBestBidOffer.bidOrder.quantity, 0, "NA", false⟩])) ∧
    (¬ b.GetBestBidOffer.offerOrder.price - b.GetBestBidOffer.bidOrder.price ≤ 1 / 128 →
      AlgoExecuteOrder s b = (s, [])) := by
  constructor <;> intro h <;>
    simp only [AlgoExecuteOrder, algoExecOnMessage, h, if_pos, if_neg, if_true, if_false,
      not_false_iff] <;>
    split <;> simp_all

/-- C1.  On every order book update, `AlgoExecuteOrder` emits an
execution order iff the book's best-offer price minus best-bid price
is at most 1/128; when emitted on a buy turn (`isBuy` set) it is a
MARKET order on the BID side at the best-offer price for the
best-offer quantity, on a sell turn a MARKET order on the OFFER side
at the best-bid price for the best-bid quantity, always with
hiddenQuantity 0, parentOrderId "NA", isChildOrder false, and orderId
the decimal string of the counter `numID`. -/
theorem algoExecuteOrder_emission_iff (s : AlgoExecState) (b : OrderStacks) :
    ((AlgoExecuteOrder s b).2 ≠ [] ↔
      b.GetBestBidOffer.offerOrder.price - b.GetBestBidOffer.bidOrder.price ≤ 1 / 128) ∧
    (b.GetBestBidOffer.offerOrder.price - b.GetBestBidOffer.bidOrder.price ≤ 1 / 128 →
      (AlgoExecuteOrder s b).2 =
        [if s.isBuy then
            ⟨b.product, .BID, natRepr s.numID, .MARKET, b.GetBestBidOffer.offerOrder.price,
              b.GetBestBidOffer.offerOrder.quantity, 0, "NA", false⟩
          else
            ⟨b.product, .OFFER, natRepr s.numID, .MARKET, b.GetBestBidOffer.bidOrder.price,
              b.GetBestBidOffer.bidOrder.quantity, 0, "NA", false⟩]) := by
  rcases algoExecuteOrder_step s b with ⟨hyes, hno⟩
  by_cases h : b.GetBestBidOffer.offerOrder.price - b.GetBestBidOffer.bidOrder.price ≤ 1 / 128
  · refine ⟨⟨fun _ => h, fun _ => ?_⟩, fun _ => ?_⟩ <;> rw [hyes h] <;> simp
  · refine ⟨⟨fun hne => ?_, fun hc => absurd hc h⟩, fun hc => absurd hc h⟩
    rw [hno h] at hne
    simp at hne

/-- Witness for C1: on `bookTight` (spread 1/256) from the initial
state, the spread condition holds and exactly the claimed BID-side
market order at the best offer is emitted. -/
theorem algoExecuteOrder_emission_iff_witness :
    bookTight.GetBestBidOffer.offerOrder.price - bookTight.GetBestBidOffer.bidOrder.price
        ≤ 1 / 128 ∧
      (AlgoExecuteOrder AlgoExecState.init bookTight).2 = [execSample] := by
  have h := (algoExecuteOrder_emission_iff AlgoExecState.init bookTight).2
  have hc : bookTight.GetBestBidOffer.offerOrder.price -
      bookTight.GetBestBidOffer.bidOrder.price ≤ 1 / 128 := by
    simp only [bookTight, bondX, OrderStacks.GetBestBidOffer, bestBidScan, bestOfferScan,
      List.foldl_cons, List.foldl_nil]
    norm_num
  refine ⟨hc, ?_⟩
  rw [h hc]
  simp only [AlgoExecState.init, execSample, bookTight, bondX, OrderStacks.GetBestBidOffer,
    bestBidScan, bestOfferScan, List.foldl_cons, List.foldl_nil, natRepr]
  norm_num

/-- Sides of the emissions from an arbitrary service state alternate,
starting with BID exactly when the state's `isBuy` toggle is set:
non-emitting updates leave both the toggle and the emission list
untouched. -/
theorem runAlgoExec_sides (books : List OrderStacks) :
    ∀ s : AlgoExecState,
      (runAlgoExec s books).2.map ExecutionOrder.side =
        altList (if s.isBuy then .BID else .OFFER) (runAlgoExec s books).2.length := by
  induction books with
  | nil => intro s; rfl
  | cons b bs ih =>
    intro s
    rcases algoExecuteOrder_step s b with ⟨hyes, hno⟩
    by_cases h : b.GetBestBidOffer.offerOrder.price - b.GetBestBidOffer.bidOrder.price ≤ 1 / 128
    · have hs := ih (AlgoExecuteOrder s b).1
      simp only [runAlgoExec]
      rw [hyes h] at hs ⊢
      cases hb : s.isBuy <;>
        simp_all [altList, flipSide]
    · have hs := ih (AlgoExecuteOrder s b).1
      simp only [runAlgoExec]
      rw [hno h] at hs ⊢
      simpa using hs

/-- C6.  Over any sequence of order book updates fed to the
algo-execution service from its constructor state, the sides of the
emitted execution orders are exactly the strictly alternating sequence
that starts with BID; updates producing no emission do not disturb the
alternation. -/
theorem algoExec_sides_alternate (books : List OrderStacks) :
    (runAlgoExec AlgoExecState.init books).2.map ExecutionOrder.side =
      altList .BID (runAlgoExec AlgoExecState.init books).2.length := by
  simpa using runAlgoExec_sides books AlgoExecState.init

/-! ### Store lemmas -/

theorem alookup_upsert_self {α : Type} (k : String) (v : α) (l : List (String × α)) :
    alookup k (upsert k v l) = some v := by
  induction l with
  | nil => simp [upsert, alookup]
  | cons kv rest ih =>
    obtain ⟨k0, v0⟩ := kv
    by_cases h : k0 = k <;> simp [upsert, alookup, h, ih]

theorem alookup_upsert_ne {α : Type} {k k1 : String} (hne : k1 ≠ k) (v : α)
    (l : List (String × α)) : alookup k1 (upsert k v l) = alookup k1 l := by
  induction l with
  | nil => simp [upsert, alookup, Ne.symm hne]
  | cons kv rest ih =>
    obtain ⟨k0, v0⟩ := kv
    by_cases h : k0 = k
    · subst h
      simp [upsert, alookup, Ne.symm hne]
    · by_cases h1 : k0 = k1 <;> simp [upsert, alookup, h, h1, hne, ih]

theorem addPosQ_sum (book : String) (q : ℤ) (l : List (String × ℤ)) :
    ((addPosQ book q l).map Prod.snd).sum = (l.map Prod.snd).sum + q := by
  induction l with
  | nil => simp [addPosQ]
  | cons kv rest ih =>
    obtain ⟨b0, q0⟩ := kv
    by_cases h : b0 = book <;> simp [addPosQ, h, ih] <;> ring

theorem alookup_addPosQ_self (book : String) (q : ℤ) (l : List (String × ℤ)) :
    alookup book (addPosQ book q l) = some ((alookup book l).getD 0 + q) := by
  induction l with
  | nil => simp [addPosQ, alookup]
  | cons kv rest ih =>
    obtain ⟨b0, q0⟩ := kv
    by_cases h : b0 = book <;> simp [addPosQ, alookup, h, ih]

theorem alookup_addPosQ_ne {book b1 : String} (hne : b1 ≠ book) (q : ℤ)
    (l : List (String × ℤ)) : alookup b1 (addPosQ book q l) = alookup b1 l := by
  induction l with
  | nil => simp [addPosQ, alookup, Ne.symm hne]
  | cons kv rest ih =>
    obtain ⟨b0, q0⟩ := kv
    by_cases h : b0 = book
    · subst h
      simp [addPosQ, alookup, Ne.symm hne]
    · by_cases h1 : b0 = b1 <;> simp [addPosQ, alookup, h, h1, hne, ih]

/-! ### Position service step lemmas -/

/-- Step lemma: `AddTrade` adds the signed quantity into `positions[book]` of the
trade's instrument (creating the position fresh when absent). -/
theorem positionAddTrade_book (store : PositionStore) (t : Trade) :
    storeBookPosition (positionAddTrade store t).1 t.product.productId t.book =
      storeBookPosition store t.product.productId t.book + signedQuantity t := by
  unfold positionAddTrade storeBookPosition signedQuantity
  cases h : alookup t.product.productId store with
  | none =>
    simp [h, alookup_upsert_self, Position.AddPosition, Position.GetPosition, addPosQ, alookup]
  | some p =>
    simp [h, alookup_upsert_self, Position.AddPosition, Position.GetPosition,
      alookup_addPosQ_self]

/-- Step lemma: `AddTrade` changes the aggregate of the traded instrument by the
signed quantity and leaves every other instrument's aggregate
unchanged. -/
theorem positionAddTrade_aggregate (store : PositionStore) (t : Trade) (pid : String) :
    storeAggregate (positionAddTrade store t).1 pid =
      storeAggregate store pid +
        (if t.product.productId = pid then signedQuantity t else 0) := by
  by_cases hpid : t.product.productId = pid
  · subst hpid
    unfold positionAddTrade storeAggregate signedQuantity
    cases h : alookup t.product.productId store with
    | none =>
      simp [h, alookup_upsert_self, Position.AddPosition, Position.GetAggregatePosition, addPosQ]
    | some p =>
      simp [h, alookup_upsert_self, Position.AddPosition, Position.GetAggregatePosition,
        addPosQ_sum]
  · unfold positionAddTrade storeAggregate
    rw [alookup_upsert_ne (Ne.symm hpid)]
    simp [hpid]

theorem signedSum_cons (pid : String) (t : Trade) (ts : List Trade) :
    signedSum pid (t :: ts) =
      (if t.product.productId = pid then signedQuantity t else 0) + signedSum pid ts := by
  by_cases h : t.product.productId = pid <;> simp [signedSum, List.filter_cons, h]

theorem runPositionService_aggregate (ts : List Trade) :
    ∀ (store : PositionStore) (pid : String),
      storeAggregate (runPositionService store ts).1 pid =
        storeAggregate store pid + signedSum pid ts := by
  induction ts with
  | nil => intro store pid; simp [runPositionService, signedSum]
  | cons t ts ih =>
    intro store pid
    simp only [runPositionService]
    rw [ih, positionAddTrade_aggregate, signedSum_cons]
    ring

/-- C3.  First conjunct: every trade adds its signed quantity (SELL
negates) into `positions[book]` of its instrument, a fresh empty
`Position` being created when the instrument was absent (its books
then all read 0).  Second conjunct: after any sequence of booked
trades, the aggregate position of each instrument -- the sum of
`positions[book]` over its books -- equals the signed cumulative
quantity of the trades booked for that instrument. -/
theorem positionService_invariant :
    (∀ (store : PositionStore) (t : Trade),
        storeBookPosition (positionAddTrade store t).1 t.product.productId t.book =
          storeBookPosition store t.product.productId t.book + signedQuantity t) ∧
    (∀ (trades : List Trade) (pid : String),
        storeAggregate (runPositionService [] trades).1 pid = signedSum pid trades) := by
  refine ⟨positionAddTrade_book, fun trades pid => ?_⟩
  have h := runPositionService_aggregate trades [] pid
  simpa [storeAggregate, alookup] using h

/-! ### Trade booking -/

/-- C2 (code evaluated at the failing input).  Feeding two successive
execution orders through `ExecutionListener::ProcessAdd` books every
derived trade -- each one fanned out twice -- on book `TRSY1`: the
listener's counter `num` is initialised to 0 and never incremented, so
`num % 3` is always 0 and the rotation to `TRSY2` / `TRSY3` promised
for successive executions never happens. -/
theorem executionListener_book_never_rotates :
    (runExecutionListener TradeBookingState.init [execSample, execSample1]).2.map Trade.book =
      ["TRSY1", "TRSY1", "TRSY1", "TRSY1"] := by
  simp [runExecutionListener, executionListenerProcessAdd, tradeBookingOnMessage,
    TradeBookingState.init, execSample, execSample1, upsert, bondX]

/-- C10.  First conjunct: one execution order delivered to the
trade-booking `ExecutionListener` produces the derived trade in the
fan-out twice -- `ProcessAdd` calls `OnMessage(trade)` directly and
then `AddTrade(trade)`, which calls `OnMessage` again -- so every
downstream listener processes the trade exactly twice.  Second
conjunct: running the position service over that fan-out moves the
instrument's aggregate position by twice the trade's signed
quantity. -/
theorem executionListener_double_booking :
    (∀ (st : TradeBookingState) (e : ExecutionOrder),
        (executionListenerProcessAdd st e).2 =
          [⟨e.product, "TRADE-EXECUTE-" ++ e.orderId, e.price,
              if st.num % 3 = 0 then "TRSY1" else if st.num % 3 = 1 then "TRSY2" else "TRSY3",
              e.visibleQuantity + e.hiddenQuantity,
              match e.side with | .BID => .BUY | .OFFER => .SELL⟩,
            ⟨e.product, "TRADE-EXECUTE-" ++ e.orderId, e.price,
              if st.num % 3 = 0 then "TRSY1" else if st.num % 3 = 1 then "TRSY2" else "TRSY3",
              e.visibleQuantity + e.hiddenQuantity,
              match e.side with | .BID => .BUY | .OFFER => .SELL⟩]) ∧
    (∀ (store : PositionStore) (st : TradeBookingState) (e : ExecutionOrder),
        storeAggregate
            (runPositionService store (executionListenerProcessAdd st e).2).1
            e.product.productId =
          storeAggregate store e.product.productId +
            2 * (if (match e.side with | .BID => Side.BUY | .OFFER => Side.SELL) = Side.SELL
                  then -(e.visibleQuantity + e.hiddenQuantity)
                  else e.visibleQuantity + e.hiddenQuantity)) := by
  have hfan : ∀ (st : TradeBookingState) (e : ExecutionOrder),
      (executionListenerProcessAdd st e).2 =
        [⟨e.product, "TRADE-EXECUTE-" ++ e.orderId, e.price,
            if st.num % 3 = 0 then "TRSY1" else if st.num % 3 = 1 then "TRSY2" else "TRSY3",
            e.visibleQuantity + e.hiddenQuantity,
            match e.side with | .BID => .BUY | .OFFER => .SELL⟩,
          ⟨e.product, "TRADE-EXECUTE-" ++ e.orderId, e.price,
            if st.num % 3 = 0 then "TRSY1" else if st.num % 3 = 1 then "TRSY2" else "TRSY3",
            e.visibleQuantity + e.hiddenQuantity,
            match e.side with | .BID => .BUY | .OFFER => .SELL⟩] := by
    intro st e
    simp [executionListenerProcessAdd, tradeBookingOnMessage]
  refine ⟨hfan, fun store st e => ?_⟩
  rw [hfan st e, runPositionService_aggregate, signedSum_cons, signedSum_cons]
  simp [signedSum, signedQuantity]
  split <;> ring

/-! ### Algo streaming -/

/-- The emissions of `PublishPrice` from any service state follow the
spec-side stream description seeded with the state's alternation
flag. -/
theorem runPublishPrice_spec (ps : List Price) :
    ∀ s : AlgoStreamingState, (runPublishPrice s ps).2 = specStreams s.isFirst ps := by
  induction ps with
  | nil => intro s; rfl
  | cons p ps ih =>
    intro s
    simp only [runPublishPrice, specStreams]
    rw [ih]
    cases hb : s.isFirst <;>
      simp [PublishPrice, specStream, hb] <;> ring_nf <;> simp [mul_comm]

/-- C5.  From the constructor state (`isFirst = false`), every price
produces exactly one price stream whose bid order is at
`mid - spread/2` on side BID, whose offer order is at `mid + spread/2`
on side OFFER, whose visible quantity alternates
10,000,000 / 20,000,000 across successive prices starting at
10,000,000, and whose hidden quantity is twice the visible quantity on
both orders (the spec-side sequence `specStreams false`). -/
theorem algoStreaming_publishPrice (prices : List Price) :
    (runPublishPrice AlgoStreamingState.init prices).2 = specStreams false prices := by
  simpa [AlgoStreamingState.init] using runPublishPrice_spec prices AlgoStreamingState.init

/-! ### Inquiries -/

/-- C4 counterexample.  Ingesting the RECEIVED inquiry of scenario S5
fans exactly one record out to the listeners, but that record carries
state DONE, not RECEIVED: the connector's `Publish` mutates the very
object the service later fans out (`SetState(QUOTED)`, then the
re-entered `OnMessage` mutates it to DONE before the `RECEIVED`
branch reaches its listener loop). -/
theorem inquiry_fanout_state_is_done :
    (inquiryOnMessage [] inqSample).2.2.map Inquiry.state ≠ [InquiryState.RECEIVED] := by
  simp [inquiryOnMessage, inqSample]

/-- C4 amended.  For every inquiry ingested in state RECEIVED, the
service ends holding it in state DONE, exactly one listener fan-out
occurs, the record fanned out (hence the one persisted line) carries
state DONE -- not RECEIVED, because `Publish` re-enters `OnMessage`
on the same referenced object and the QUOTED branch sets it to DONE
before the fan-out loop runs -- and the QUOTED-to-DONE step itself
performs no fan-out. -/
theorem inquiry_received_lifecycle (st : List (String × Inquiry)) (inq : Inquiry)
    (h : inq.state = .RECEIVED) :
    alookup inq.inquiryId (inquiryOnMessage st inq).1 = some { inq with state := .DONE } ∧
    (inquiryOnMessage st inq).2.2 = [{ inq with state := .DONE }] ∧
    (∀ (st1 : List (String × Inquiry)) (q : Inquiry), q.state = .QUOTED →
        (inquiryOnMessage st1 q).2.2 = []) := by
  obtain ⟨id0, pr0, sd0, qt0, pc0, st0⟩ := inq
  simp only at h
  subst h
  refine ⟨?_, ?_, ?_⟩
  · simp [inquiryOnMessage, alookup_upsert_self]
  · simp [inquiryOnMessage]
  · intro st1 q hq
    obtain ⟨id1, pr1, sd1, qt1, pc1, sta1⟩ := q
    simp only at hq
    subst hq
    simp [inquiryOnMessage]

/-- Witness for the amended C4, on scenario S5's inquiry. -/
theorem inquiry_received_lifecycle_witness :
    inqSample.state = InquiryState.RECEIVED ∧
      alookup inqSample.inquiryId (inquiryOnMessage [] inqSample).1 =
        some { inqSample with state := .DONE } ∧
      (inquiryOnMessage [] inqSample).2.2 = [{ inqSample with state := .DONE }] := by
  have h := inquiry_received_lifecycle [] inqSample (by simp [inqSample])
  exact ⟨by simp [inqSample], h.1, h.2.1⟩

/-! ### GUI throttle -/

/-- Strict-gap chain for the throttle output, from any state: the
first emitted timestamp beats the state's `lastTime` by more than the
throttle, and successive emitted timestamps are separated by more
than the throttle. -/
theorem runThrottle_chain (inputs : List (ℚ × Price)) :
    ∀ s : GUIServiceState,
      List.Chain' (fun a b : ℚ × Price => b.1 - a.1 > guiThrottle) (runThrottle s inputs).2 ∧
      (∀ hd ∈ ((runThrottle s inputs).2).head?, hd.1 - s.lastTime > guiThrottle) := by
  induction inputs with
  | nil => intro s; simp [runThrottle]
  | cons tp rest ih =>
    intro s
    obtain ⟨t, p⟩ := tp
    by_cases h : t - s.lastTime > guiThrottle
    · have hs := ih ⟨upsert p.product.productId p s.guis, t⟩
      simp only [runThrottle, ThroettleStreamingPrices, if_pos h]
      refine ⟨List.chain'_cons'.2 ⟨fun b hb => ?_, hs.1⟩, ?_⟩
      · simpa using hs.2 b hb
      · simpa using h
    · have hs := ih s
      simp only [runThrottle, ThroettleStreamingPrices, if_neg h]
      simpa using hs

/-- C9.  First conjunct: one price update writes a `gui.txt` record
exactly when the current time minus `lastTime` exceeds the 300 ms
throttle, in which case the record carries the current time,
`lastTime` is set to the current time, and the price is stored and
fanned out; otherwise the update is dropped with the state untouched
(so it is never retried).  Second conjunct: over any input sequence,
consecutive `gui.txt` timestamps differ by at least 300 ms. -/
theorem gui_throttle_spec :
    (∀ (s : GUIServiceState) (t : ℚ) (p : Price),
        ((ThroettleStreamingPrices s t p).2.1 ≠ [] ↔ t - s.lastTime > guiThrottle) ∧
        (t - s.lastTime > guiThrottle →
          ThroettleStreamingPrices s t p =
            (⟨upsert p.product.productId p s.guis, t⟩, [(t, p)], [p])) ∧
        (¬ t - s.lastTime > guiThrottle → ThroettleStreamingPrices s t p = (s, [], []))) ∧
    (∀ (s : GUIServiceState) (inputs : List (ℚ × Price)),
        List.Chain' (fun a b : ℚ × Price => b.1 - a.1 ≥ guiThrottle) (runThrottle s inputs).2) := by
  constructor
  · intro s t p
    by_cases h : t - s.lastTime > guiThrottle <;>
      simp [ThroettleStreamingPrices, h]
  · intro s inputs
    exact ((runThrottle_chain inputs s).1).imp fun a b hab => le_of_lt hab

/-- Witness for C9: from `lastTime = 0`, an update at t = 400 ms is
written and one at t = 200 ms is dropped. -/
theorem gui_throttle_spec_witness :
    (ThroettleStreamingPrices ⟨[], 0⟩ 400 priceSample).2.1 = [(400, priceSample)] ∧
      ThroettleStreamingPrices ⟨[], 0⟩ 200 priceSample = (⟨[], 0⟩, [], []) := by
  constructor
  · have h := ((gui_throttle_spec.1 ⟨[], 0⟩ 400 priceSample).2.1 (by norm_num [guiThrottle]))
    rw [h]
  · exact (gui_throttle_spec.1 ⟨[], 0⟩ 200 priceSample).2.2 (by norm_num [guiThrottle])

/-! ### Market-data batching -/

theorem bidOrdersOf_cons (l : MDLine) (ls : List MDLine) :
    bidOrdersOf (l :: ls) =
      (if l.side = .BID then [⟨l.price, l.quantity, .BID⟩] else []) ++ bidOrdersOf ls := by
  by_cases h : l.side = .BID <;> simp [bidOrdersOf, h]

theorem offerOrdersOf_cons (l : MDLine) (ls : List MDLine) :
    offerOrdersOf (l :: ls) =
      (if l.side = .OFFER then [⟨l.price, l.quantity, .OFFER⟩] else []) ++ offerOrdersOf ls := by
  by_cases h : l.side = .OFFER <;> simp [offerOrdersOf, h]

/-- One loop step that does not complete a group of 10. -/
theorem mds_cons_step (l : MDLine) (rest : List MDLine) (n : ℕ) (bids offers : List Order)
    (h : ¬ n + 1 = 10) :
    marketDataSubscribe (l :: rest) n bids offers =
      marketDataSubscribe rest (n + 1)
        (if l.side = .BID then bids ++ [⟨l.price, l.quantity, .BID⟩] else bids)
        (if l.side = .OFFER then offers ++ [⟨l.price, l.quantity, .OFFER⟩] else offers) := by
  conv_lhs => rw [marketDataSubscribe]
  rw [if_neg h]

/-- One loop step that completes a group of 10: emit and reset. -/
theorem mds_cons_emit (l : MDLine) (rest : List MDLine) (n : ℕ) (bids offers : List Order)
    (h : n + 1 = 10) :
    marketDataSubscribe (l :: rest) n bids offers =
      ⟨GetProductType l.cusip,
        if l.side = .BID then bids ++ [⟨l.price, l.quantity, .BID⟩] else bids,
        if l.side = .OFFER then offers ++ [⟨l.price, l.quantity, .OFFER⟩] else offers⟩ ::
        marketDataSubscribe rest 0 [] [] := by
  conv_lhs => rw [marketDataSubscribe]
  rw [if_pos h]

/-- Fewer than 10 lines remaining (counting those already read in the
group) produce no emission. -/
theorem mds_short (ls : List MDLine) :
    ∀ (n : ℕ) (bids offers : List Order), ls.length + n < 10 →
      marketDataSubscribe ls n bids offers = [] := by
  induction ls with
  | nil => intro n bids offers _; rfl
  | cons l rest ih =>
    intro n bids offers h
    simp only [List.length_cons] at h
    have hne : ¬ (n + 1 = 10) := by omega
    rw [mds_cons_step l rest n bids offers hne]
    exact ih (n + 1) _ _ (by omega)

/-- One complete group: with `n` lines already read, the next
`10 - n` lines are packaged into one book -- instrument from the
group's last line, accumulated bid and offer orders appended in
arrival order -- and the loop restarts fresh on the remainder. -/
theorem mds_group (pre : List MDLine) :
    ∀ (n : ℕ) (bids offers : List Order) (rest : List MDLine),
      pre.length + n = 10 → n < 10 →
      marketDataSubscribe (pre ++ rest) n bids offers =
        ⟨GetProductType ((pre.getLast?.map MDLine.cusip).getD ""),
          bids ++ bidOrdersOf pre, offers ++ offerOrdersOf pre⟩ ::
          marketDataSubscribe rest 0 [] [] := by
  induction pre with
  | nil => intro n bids offers rest hlen hn; simp at hlen; omega
  | cons l pre ih =>
    intro n bids offers rest hlen hn
    simp only [List.length_cons] at hlen
    cases pre with
    | nil =>
      have hn9 : n = 9 := by simp at hlen; omega
      subst hn9
      rw [List.singleton_append, mds_cons_emit l rest 9 bids offers (by omega)]
      by_cases h : l.side = .BID
      · have hno : ¬ l.side = .OFFER := by simp [h]
        simp [h, hno, bidOrdersOf, offerOrdersOf]
      · have hof : l.side = .OFFER := by cases hs : l.side <;> simp_all
        simp [h, hof, bidOrdersOf, offerOrdersOf]
    | cons l2 pre2 =>
      have hlen2 : (l2 :: pre2).length + (n + 1) = 10 := by
        simp only [List.length_cons] at hlen ⊢
        omega
      have hn2 : n + 1 < 10 := by
        simp only [List.length_cons] at hlen
        omega
      have hne : ¬ (n + 1 = 10) := by omega
      simp only [List.cons_append]
      rw [mds_cons_step l (l2 :: (pre2 ++ rest)) n bids offers hne]
      have hrec := ih (n + 1)
        (if l.side = .BID then bids ++ [⟨l.price, l.quantity, .BID⟩] else bids)
        (if l.side = .OFFER then offers ++ [⟨l.price, l.quantity, .OFFER⟩] else offers)
        rest hlen2 hn2
      simp only [List.cons_append] at hrec
      rw [hrec]
      by_cases h : l.side = .BID
      · have hno : ¬ l.side = .OFFER := by simp [h]
        simp [h, hno, List.getLast?_cons_cons, bidOrdersOf_cons, offerOrdersOf_cons]
      · have hof : l.side = .OFFER := by cases hs : l.side <;> simp_all
        simp [h, hof, List.getLast?_cons_cons, bidOrdersOf_cons, offerOrdersOf_cons]

theorem specBatches_short {ls : List MDLine} (h : ls.length < 10) : specBatches ls = [] := by
  unfold specBatches
  simp [h]

theorem specBatches_long {ls : List MDLine} (h : ¬ ls.length < 10) :
    specBatches ls = specGroupBook (ls.take 10) :: specBatches (ls.drop 10) := by
  conv_lhs => unfold specBatches
  simp [h]

theorem specBatches_length (ls : List MDLine) : (specBatches ls).length = ls.length / 10 := by
  by_cases h : ls.length < 10
  · rw [specBatches_short h, List.length_nil, Nat.div_eq_of_lt h]
  · rw [specBatches_long h, List.length_cons, specBatches_length (ls.drop 10)]
    rw [List.length_drop]
    omega
termination_by ls.length
decreasing_by simp; omega

/-- The subscriber's emission sequence is exactly the spec-side one. -/
theorem marketDataSubscribe_eq (ls : List MDLine) :
    marketDataSubscribe ls 0 [] [] = specBatches ls := by
  by_cases h : ls.length < 10
  · rw [mds_short ls 0 [] [] (by omega), specBatches_short h]
  · have htake : (ls.take 10).length + 0 = 10 := by
      simp only [List.length_take]
      omega
    rw [specBatches_long h]
    conv_lhs => rw [(List.take_append_drop 10 ls).symm]
    rw [mds_group (ls.take 10) 0 [] [] (ls.drop 10) htake (by omega)]
    rw [marketDataSubscribe_eq (ls.drop 10)]
    simp [specGroupBook]
termination_by ls.length
decreasing_by simp; omega

/-- C7.  For any sequence of well-formed market-data lines, the
subscriber emits one `OrderBook` per complete group of 10 consecutive
lines -- the group's bid and offer orders in arrival order, the
accumulators reset in between, the instrument taken from the
identifier on the group's 10th line -- and nothing for a trailing
incomplete group, so N lines yield exactly ⌊N/10⌋ emissions. -/
theorem marketData_batching (ls : List MDLine) :
    marketDataSubscribe ls 0 [] [] = specBatches ls ∧
      (marketDataSubscribe ls 0 [] []).length = ls.length / 10 := by
  refine ⟨marketDataSubscribe_eq ls, ?_⟩
  rw [marketDataSubscribe_eq ls, specBatches_length ls]

/-! ### Decimal-string lemmas for the price codec -/

theorem digitChar_toNat {d : ℕ} (h : d < 10) : (Nat.digitChar d).toNat - 48 = d := by
  interval_cases d <;> rfl

theorem digitChar_ne_dash {d : ℕ} (h : d < 10) : Nat.digitChar d ≠ '-' := by
  interval_cases d <;> decide

theorem digitChar_ne_plus {d : ℕ} (h : d < 10) : Nat.digitChar d ≠ '+' := by
  interval_cases d <;> decide

theorem digitsVal_concat (l : List Char) (c : Char) :
    digitsVal (l ++ [c]) = 10 * digitsVal l + (c.toNat - 48) := by
  simp [digitsVal, List.foldl_append]

theorem digitsVal_rev_digits (l : List ℕ) (hl : ∀ d ∈ l, d < 10) :
    digitsVal (l.reverse.map Nat.digitChar) = Nat.ofDigits 10 l := by
  induction l with
  | nil => simp [digitsVal, Nat.ofDigits]
  | cons d ds ih =>
    have hd : d < 10 := hl d (by simp)
    have hds : ∀ e ∈ ds, e < 10 := fun e he => hl e (by simp [he])
    simp only [List.reverse_cons, List.map_append, List.map_cons, List.map_nil]
    rw [digitsVal_concat, ih hds, digitChar_toNat hd, Nat.ofDigits_cons]
    ring

theorem digitsVal_natRepr (n : ℕ) : digitsVal (natRepr n).data = n := by
  by_cases h : n = 0
  · subst h; rfl
  · have hdata : (natRepr n).data = (Nat.digits 10 n).reverse.map Nat.digitChar := by
      simp [natRepr, h]
    rw [hdata, digitsVal_rev_digits _ (fun d hd => Nat.digits_lt_base (by norm_num) hd),
      Nat.ofDigits_digits]

theorem natRepr_ne_dash (n : ℕ) : ∀ c ∈ (natRepr n).data, c ≠ '-' := by
  by_cases h : n = 0
  · subst h
    intro c hc
    simp [natRepr] at hc
    subst hc
    decide
  · intro c hc
    simp [natRepr, h] at hc
    obtain ⟨d, hd, rfl⟩ := hc
    exact digitChar_ne_dash (Nat.digits_lt_base (by norm_num) hd)

theorem natRepr_length_small {n : ℕ} (h : n < 10) : (natRepr n).data.length = 1 := by
  by_cases h0 : n = 0
  · subst h0; rfl
  · have hdig : Nat.digits 10 n = [n] := by
      rw [Nat.digits_def' (by norm_num : (1 : ℕ) < 10) (Nat.pos_of_ne_zero h0)]
      simp [Nat.mod_eq_of_lt h, Nat.div_eq_of_lt h]
    simp [natRepr, h0, hdig]

theorem natRepr_length_two {n : ℕ} (h10 : 10 ≤ n) (h : n < 100) :
    (natRepr n).data.length = 2 := by
  have h0 : n ≠ 0 := by omega
  have hlog : Nat.log 10 n = 1 :=
    Nat.log_eq_of_pow_le_of_lt_pow (by simpa using h10) (by simpa using h)
  simp [natRepr, h0, Nat.digits_len 10 n (by norm_num) h0, hlog]

theorem findIdx_dash_append (l r : List Char) (hl : ∀ c ∈ l, c ≠ '-') :
    List.findIdx (fun c => c = '-') (l ++ '-' :: r) = l.length := by
  induction l with
  | nil => simp [List.findIdx_cons]
  | cons c cs ih =>
    have hc : c ≠ '-' := hl c (by simp)
    have hcs : ∀ e ∈ cs, e ≠ '-' := fun e he => hl e (by simp [he])
    simp [List.findIdx_cons, hc, ih hcs]

theorem natRepr_ne_plus (n : ℕ) : ∀ c ∈ (natRepr n).data, c ≠ '+' := by
  by_cases h : n = 0
  · subst h
    intro c hc
    simp [natRepr] at hc
    subst hc
    decide
  · intro c hc
    simp [natRepr, h] at hc
    obtain ⟨d, hd, rfl⟩ := hc
    exact digitChar_ne_plus (Nat.digits_lt_base (by norm_num) hd)

/-- Leading zero characters do not change `digitsVal`. -/
theorem digitsVal_cons_zero (l : List Char) : digitsVal ('0' :: l) = digitsVal l := by
  simp [digitsVal]

/-- Parsing the canonical well-formed fractional string recovers the
exact rational `x + y/32 + z/256`. -/
theorem getNormalPrice_fracString (x y z : ℕ) (hy : y ≤ 31) (hz : z ≤ 7) :
    GetNormalPrice (fracString x y z) =
      (x : ℚ) + (y : ℚ) / 32 + (z : ℚ) / 256 := by
  have hA : (natRepr x).data.length = (natRepr x).data.length := rfl
  set A : List Char := (natRepr x).data with hAdef
  set P : String := if y < 10 then "0" ++ natRepr y else natRepr y with hPdef
  set Z : String := if z = 4 then "+" else natRepr z with hZdef
  have hPlen : P.data.length = 2 := by
    by_cases h : y < 10
    · simp only [hPdef, if_pos h, String.data_append]
      simp [natRepr_length_small h]
    · simp only [hPdef, if_neg h]
      exact natRepr_length_two (by omega) (by omega)
  have hZlen : Z.data.length = 1 := by
    by_cases h : z = 4
    · simp [hZdef, h]
    · simp only [hZdef, if_neg h]
      exact natRepr_length_small (by omega)
  have hdata : (fracString x y z).data = A ++ '-' :: (P.data ++ Z.data) := by
    simp [fracString, String.data_append, hAdef, hPdef, hZdef]
  have hfind : strFind (fracString x y z) '-' = A.length := by
    show List.findIdx (fun c => c = '-') (fracString x y z).data = A.length
    rw [hdata]
    exact findIdx_dash_append A _ (natRepr_ne_dash x)
  have hfp : strSubstr (fracString x y z) 0 A.length = ⟨A⟩ := by
    show (⟨((fracString x y z).data.drop 0).take A.length⟩ : String) = ⟨A⟩
    rw [hdata, List.drop_zero, List.take_left]
  have hdrop1 : (fracString x y z).data.drop (A.length + 1) = P.data ++ Z.data := by
    rw [← List.drop_drop, hdata, List.drop_left]
    rfl
  have hsp : strSubstr (fracString x y z) (A.length + 1) 2 = ⟨P.data⟩ := by
    show (⟨((fracString x y z).data.drop (A.length + 1)).take 2⟩ : String) = ⟨P.data⟩
    rw [hdrop1, ← hPlen, List.take_left]
  have htp : strSubstr (fracString x y z) (A.length + 3) 1 = ⟨Z.data⟩ := by
    show (⟨((fracString x y z).data.drop (A.length + 3)).take 1⟩ : String) = ⟨Z.data⟩
    have h3 : A.length + 3 = (A.length + 1) + 2 := by omega
    rw [h3, ← List.drop_drop, hdrop1, ← hPlen, List.drop_left, ← hZlen, List.take_length]
  have hfpval : stodDigits ⟨A⟩ = (x : ℚ) := by
    show ((digitsVal A : ℕ) : ℚ) = (x : ℚ)
    rw [hAdef, digitsVal_natRepr]
  have hspval : stodDigits ⟨P.data⟩ = (y : ℚ) := by
    show ((digitsVal P.data : ℕ) : ℚ) = (y : ℚ)
    by_cases h : y < 10
    · have : P.data = '0' :: (natRepr y).data := by
        simp [hPdef, if_pos h, String.data_append]
      rw [this, digitsVal_cons_zero, digitsVal_natRepr]
    · have : P.data = (natRepr y).data := by simp [hPdef, if_neg h]
      rw [this, digitsVal_natRepr]
  have htpval :
      stodDigits (if (⟨Z.data⟩ : String) = "+" then "4" else ⟨Z.data⟩) = (z : ℚ) := by
    by_cases h : z = 4
    · have hzp : (⟨Z.data⟩ : String) = "+" := by simp [hZdef, h]
      rw [if_pos hzp, h]
      rfl
    · have hZn : Z = natRepr z := by simp [hZdef, h]
      have hne : (⟨Z.data⟩ : String) ≠ "+" := by
        intro hcontra
        have hdd : Z.data = ['+'] := congrArg String.data hcontra
        have hmem : '+' ∈ Z.data := by rw [hdd]; simp
        rw [hZn] at hmem
        exact natRepr_ne_plus z '+' hmem rfl
      rw [if_neg hne]
      show ((digitsVal Z.data : ℕ) : ℚ) = (z : ℚ)
      rw [hZn, digitsVal_natRepr]
  simp only [GetNormalPrice]
  rw [hfind, hfp, hsp, htp, hfpval, hspval, htpval]

theorem intRepr_natCast (n : ℕ) : intRepr (n : ℤ) = natRepr n := by
  simp [intRepr, Int.toNat_natCast]

/-- Formatting the exact rational `x + y/32 + z/256` produces the
canonical well-formed fractional string. -/
theorem getQuotePrice_value (x y z : ℕ) (hy : y ≤ 31) (hz : z ≤ 7) :
    GetQuotePrice ((x : ℚ) + (y : ℚ) / 32 + (z : ℚ) / 256) = fracString x y z := by
  have hyQ : (y : ℚ) ≤ 31 := by exact_mod_cast hy
  have hzQ : (z : ℚ) ≤ 7 := by exact_mod_cast hz
  have hy0 : (0 : ℚ) ≤ (y : ℚ) := Nat.cast_nonneg y
  have hz0 : (0 : ℚ) ≤ (z : ℚ) := Nat.cast_nonneg z
  have hfp : ⌊(x : ℚ) + (y : ℚ) / 32 + (z : ℚ) / 256⌋ = (x : ℤ) := by
    rw [Int.floor_eq_iff]
    constructor
    · push_cast
      linarith
    · push_cast
      linarith
  have htp : ⌊(((x : ℚ) + (y : ℚ) / 32 + (z : ℚ) / 256) - (((x : ℤ) : ℚ))) * 256⌋ =
      ((8 * y + z : ℕ) : ℤ) := by
    have heq : (((x : ℚ) + (y : ℚ) / 32 + (z : ℚ) / 256) - (((x : ℤ) : ℚ))) * 256 =
        ((8 * y + z : ℕ) : ℚ) := by
      push_cast
      ring
    rw [heq, Int.floor_natCast]
  have hsp : ⌊((((8 * y + z : ℕ) : ℤ) : ℚ) / 8)⌋ = (y : ℤ) := by
    have heq : ((((8 * y + z : ℕ) : ℤ) : ℚ) / 8) = ((y : ℤ) : ℚ) + (z : ℚ) / 8 := by
      push_cast
      ring
    have hz8 : ⌊(z : ℚ) / 8⌋ = 0 := by
      rw [Int.floor_eq_zero_iff]
      constructor
      · positivity
      · show (z : ℚ) / 8 < 1
        linarith
    rw [heq, Int.floor_int_add, hz8, add_zero]
  have htp2 : (((8 * y + z : ℕ) : ℤ)) % 8 = (z : ℤ) := by
    push_cast
    omega
  simp only [GetQuotePrice]
  rw [hfp, htp, hsp, htp2]
  by_cases hylt : y < 10 <;> by_cases hz4 : z = 4
  · rw [if_pos (by exact_mod_cast hylt), if_pos (by exact_mod_cast hz4)]
    simp [fracString, intRepr_natCast, hylt, hz4]
  · rw [if_pos (by exact_mod_cast hylt),
      if_neg (fun hc => hz4 (by exact_mod_cast hc))]
    simp [fracString, intRepr_natCast, hylt, hz4]
  · rw [if_neg (fun hc => hylt (by exact_mod_cast hc)), if_pos (by exact_mod_cast hz4)]
    simp [fracString, intRepr_natCast, hylt, hz4]
  · rw [if_neg (fun hc => hylt (by exact_mod_cast hc)),
      if_neg (fun hc => hz4 (by exact_mod_cast hc))]
    simp [fracString, intRepr_natCast, hylt, hz4]

/-- C8.  Round-trip: for every well-formed fractional price string --
canonical handle digits, 32nds `00`..`31` zero-padded to two
characters, 256ths digit 0..7 rendered `+` at 4 -- formatting the
parsed decimal value yields the string back:
`GetQuotePrice (GetNormalPrice (fracString x y z)) = fracString x y z`. -/
theorem fractional_roundtrip (x y z : ℕ) (hy : y ≤ 31) (hz : z ≤ 7) :
    GetQuotePrice (GetNormalPrice (fracString x y z)) = fracString x y z := by
  rw [getNormalPrice_fracString x y z hy hz, getQuotePrice_value x y z hy hz]

/-- Witness for C8: the round-trip at the concrete string `99-162`
(x = 99, y = 16, z = 2). -/
theorem fractional_roundtrip_witness :
    (16 ≤ 31 ∧ 2 ≤ 7) ∧
      GetQuotePrice (GetNormalPrice (fracString 99 16 2)) = fracString 99 16 2 :=
  ⟨⟨by norm_num, by norm_num⟩, fractional_roundtrip 99 16 2 (by norm_num) (by norm_num)⟩

end TradingSystem
